import Mathlib

/-!
Verification development for the input-transform engine of the jaq repository
(package transform, file transform.go, with its callers in package cmd).

The Go code is shallowly embedded as executable Lean definitions:

* Go strings are modeled as Lean String values (we treat them at character
  granularity; the inputs relevant here are ASCII, where Go byte indexing and
  Lean character indexing agree).
* Decoded JSON values (Go interface values produced by encoding/json) are
  modeled by the inductive Jval below.  Go maps carry no order and
  encoding/json marshals map keys sorted, so decoded objects are represented
  canonically as key-sorted association lists; JSON numbers decode to float64
  and are re-rendered by both fmt and encoding/json in their shortest form,
  which we model by carrying the rendered text in the num constructor.
* The json.Decoder loop of readData is modeled by a list of decode events:
  each event is the observable result of one dec.Decode call (a decoded
  value, a decoded top-level null together with the bytes still buffered by
  the decoder, a syntax error together with the buffered bytes handed to the
  whitespace-tokenizing fallback, or another decode error).  The fallback
  scanner error (bufio.Scanner.Err) is modeled by an oracle field on the
  event, since it is a property of the underlying reader.
* Functions that can panic in Go (out-of-range slice indexing) return Option,
  none standing for a panic; log.Fatalf (process exit) and returned errors
  are distinguished by the Outcome type.
* The library call os.Expand with its helper getShellName is embedded
  verbatim from the Go standard library; gabs.ParseJSON and Container.Path /
  Search are embedded from the Jeffail/gabs v1 library used by the repo
  (its observable behavior is pinned by the repository's own tests, e.g.
  a path query fanning out over a JSON array).
-/

/-- Opening brace character (written via its code point). -/
def lbrace : Char := Char.ofNat 123

/-- Closing brace character (written via its code point). -/
def rbrace : Char := Char.ofNat 125

/-- Embeds os.isShellSpecialVar: special shell parameter characters, which
include the single digits 0-9. -/
def isShellSpecialVar (c : Char) : Bool :=
  c = '*' || c = '#' || c = '$' || c = '@' || c = '!' || c = '?' || c = '-' ||
    ('0' ≤ c && c ≤ '9')

/-- Embeds os.isAlphaNum: underscore, digits and ASCII letters. -/
def isAlphaNum (c : Char) : Bool :=
  c = '_' || ('0' ≤ c && c ≤ '9') || ('a' ≤ c && c ≤ 'z') || ('A' ≤ c && c ≤ 'Z')

/-- Embeds the brace-scanning loop of os.getShellName: scan the characters
after the opening brace for a closing brace; cs are the characters following
the opening brace.  Returns the name and the width consumed after the
dollar sign. -/
def getBraceName (cs : List Char) : String × Nat :=
  match cs.findIdx? (fun c => c = rbrace) with
  | none => ("", 1)
  | some 0 => ("", 2)
  | some k => (String.mk (cs.take k), k + 2)

/-- Embeds os.getShellName: given the characters following a dollar sign,
returns the name of the referenced variable and the number of characters
consumed.  A leading shell special character (including any single digit)
forms a one-character name. -/
def getShellName (s : List Char) : String × Nat :=
  match s with
  | [] => ("", 0)
  | c :: cs =>
    if c = lbrace then
      match cs with
      | c1 :: c2 :: _ =>
        if isShellSpecialVar c1 && c2 = rbrace then (String.mk [c1], 3) else getBraceName cs
      | _ => getBraceName cs
    else if isShellSpecialVar c then (String.mk [c], 1)
    else
      let name := s.takeWhile isAlphaNum
      (String.mk name, name.length)

/-- Embeds os.Expand (fuel-based so that the definition is structural; the
wrapper expand below supplies sufficient fuel, and expandFuel_congr shows the
result does not depend on the fuel).  The mapping returns Option String:
none models a Go panic raised by the mapping, which propagates. -/
def expandFuel (mapping : String → Option String) : Nat → List Char → Option (List Char)
  | 0, _ => none
  | _ + 1, [] => some []
  | fuel + 1, c :: rest =>
    if c = '$' then
      match rest with
      | [] => some ['$']
      | _ :: _ =>
        let p := getShellName rest
        if p.1 = "" && p.2 > 0 then
          expandFuel mapping fuel (rest.drop p.2)
        else if p.1 = "" then
          match expandFuel mapping fuel rest with
          | some t => some ('$' :: t)
          | none => none
        else
          match mapping p.1, expandFuel mapping fuel (rest.drop p.2) with
          | some v, some t => some (v.data ++ t)
          | _, _ => none
    else
      match expandFuel mapping fuel rest with
      | some t => some (c :: t)
      | none => none

/-- Embeds os.Expand on a character list, supplying sufficient fuel. -/
def expand (mapping : String → Option String) (cs : List Char) : Option (List Char) :=
  expandFuel mapping (cs.length + 1) cs

/-- Lower-case hexadecimal digit for n < 16. -/
def hexDigit (n : Nat) : Char :=
  if n < 10 then Char.ofNat ('0'.toNat + n) else Char.ofNat ('a'.toNat + n - 10)

/-- Two lower-case hexadecimal digits of a byte value. -/
def hexByte (n : Nat) : List Char :=
  [hexDigit (n / 16), hexDigit (n % 16)]

/-- Embeds the per-character escaping of strconv.Quote (the %q verb used by
truncatedValue): named escapes for the common control characters, \x escapes
for other non-printable bytes, all other characters unchanged. -/
def goQuoteChar (c : Char) : List Char :=
  if c = '"' then ['\\', '"']
  else if c = '\\' then ['\\', '\\']
  else if c = '\n' then ['\\', 'n']
  else if c = '\t' then ['\\', 't']
  else if c = '\r' then ['\\', 'r']
  else if c.toNat = 7 then ['\\', 'a']
  else if c.toNat = 8 then ['\\', 'b']
  else if c.toNat = 11 then ['\\', 'v']
  else if c.toNat = 12 then ['\\', 'f']
  else if c.toNat < 32 || c.toNat = 127 then '\\' :: 'x' :: hexByte c.toNat
  else [c]

/-- Embeds strconv.Quote / the %q formatting verb: the string surrounded by
double quotes with its characters escaped. -/
def goQuote (s : String) : String :=
  "\"" ++ String.mk (s.data.map goQuoteChar).flatten ++ "\""

/-- Embeds the per-character escaping performed by encoding/json when
marshaling a string (HTML escaping on, as in json.Marshal). -/
def jsonEscapeChar (c : Char) : List Char :=
  if c = '"' then ['\\', '"']
  else if c = '\\' then ['\\', '\\']
  else if c = '\n' then ['\\', 'n']
  else if c = '\r' then ['\\', 'r']
  else if c = '\t' then ['\\', 't']
  else if c = '<' then '\\' :: 'u' :: '0' :: '0' :: hexByte 60
  else if c = '>' then '\\' :: 'u' :: '0' :: '0' :: hexByte 62
  else if c = '&' then '\\' :: 'u' :: '0' :: '0' :: hexByte 38
  else if c.toNat < 32 then '\\' :: 'u' :: '0' :: '0' :: hexByte c.toNat
  else [c]

/-- JSON string literal as produced by json.Marshal. -/
def jsonQuote (s : String) : String :=
  "\"" ++ String.mk (s.data.map jsonEscapeChar).flatten ++ "\""

/-- Embeds unicode.IsSpace as used by bufio.ScanWords (the ASCII whitespace
characters together with the Latin-1 ones). -/
def isGoSpace (c : Char) : Bool :=
  c = ' ' || c = '\t' || c = '\n' || c = '\r' || c.toNat = 11 || c.toNat = 12 ||
    c.toNat = 133 || c.toNat = 160

/-- Helper for splitWords: acc holds the characters of the current word in
reverse order. -/
def splitWordsAux : List Char → List Char → List String
  | [], acc => if acc.isEmpty then [] else [String.mk acc.reverse]
  | c :: rest, acc =>
    if isGoSpace c then
      if acc.isEmpty then splitWordsAux rest []
      else String.mk acc.reverse :: splitWordsAux rest []
    else splitWordsAux rest (c :: acc)

/-- Embeds the bufio.Scanner loop with bufio.ScanWords in readData: the
maximal whitespace-free tokens of the input, in order. -/
def splitWords (s : String) : List String :=
  splitWordsAux s.data []

/-- Splits a character list at the first occurrence of c; none when c does
not occur.  Used to embed strings.SplitN(s, sep, 2). -/
def splitFirst (c : Char) : List Char → Option (List Char × List Char)
  | [] => none
  | a :: rest =>
    if a = c then some ([], rest)
    else (splitFirst c rest).map (fun p => (a :: p.1, p.2))

/-- Accumulator form of digitsVal. -/
def digitsValAcc (acc : Nat) : List Char → Nat
  | [] => acc
  | c :: rest => digitsValAcc (acc * 10 + (c.toNat - 48)) rest

/-- Decimal value of a digit run. -/
def digitsVal (l : List Char) : Nat :=
  digitsValAcc 0 l

/-- Embeds strconv.Atoi: an optional sign followed by at least one decimal
digit, rejecting values outside the int64 range (Go returns a non-nil error
in every failure case, modeled as none). -/
def goAtoi (s : String) : Option Int :=
  let p : Int × List Char :=
    match s.data with
    | '-' :: rest => (-1, rest)
    | '+' :: rest => (1, rest)
    | l => (1, l)
  if p.2.isEmpty || !p.2.all Char.isDigit then none
  else
    let n : Int := p.1 * (digitsVal p.2 : Nat)
    if n < -(9223372036854775808 : Int) || n > (9223372036854775807 : Int) then none
    else some n

mutual
/-- Decoded JSON value as held in a Go interface value by encoding/json:
null, bool, float64 (kept as its rendered text), string, slice, or map.
Maps are represented canonically as key-sorted association lists, matching
the sorted-key serialization of json.Marshal and fmt's sorted map printing. -/
inductive Jval where
  | null : Jval
  | bool (b : Bool) : Jval
  | num (text : String) : Jval
  | str (s : String) : Jval
  | arr (elems : JvalList) : Jval
  | obj (fields : JvalObj) : Jval
  deriving DecidableEq
/-- List of decoded JSON values (a Go []interface value). -/
inductive JvalList where
  | nil : JvalList
  | cons (head : Jval) (tail : JvalList) : JvalList
  deriving DecidableEq
/-- Fields of a decoded JSON object (a Go map[string]interface value),
kept sorted by key. -/
inductive JvalObj where
  | nil : JvalObj
  | cons (key : String) (val : Jval) (tail : JvalObj) : JvalObj
  deriving DecidableEq
end

/-- Insertion into a decoded object, keeping keys sorted and letting a later
duplicate key overwrite the earlier one (Go map assignment). -/
def objInsert : JvalObj → String → Jval → JvalObj
  | .nil, k, v => .cons k v .nil
  | .cons k0 v0 rest, k, v =>
    if k < k0 then .cons k v (.cons k0 v0 rest)
    else if k = k0 then .cons k v rest
    else .cons k0 v0 (objInsert rest k v)

mutual
/-- Embeds json.Marshal on a decoded value: compact JSON text, object keys
already sorted by the canonical representation. -/
def marshal : Jval → String
  | .null => "null"
  | .bool b => if b then "true" else "false"
  | .num t => t
  | .str s => jsonQuote s
  | .arr l => "[" ++ marshalList l ++ "]"
  | .obj m => "\x7b" ++ marshalObj m ++ "\x7d"
/-- Comma-separated marshaling of array elements. -/
def marshalList : JvalList → String
  | .nil => ""
  | .cons v .nil => marshal v
  | .cons v rest => marshal v ++ "," ++ marshalList rest
/-- Comma-separated marshaling of object fields. -/
def marshalObj : JvalObj → String
  | .nil => ""
  | .cons k v .nil => jsonQuote k ++ ":" ++ marshal v
  | .cons k v rest => jsonQuote k ++ ":" ++ marshal v ++ "," ++ marshalObj rest
end

mutual
/-- Embeds fmt.Sprint on a decoded value (the %v rendering): nil prints as
the text between angle brackets reading nil, strings print bare, slices
print bracketed and space-separated, maps print with the map prefix and
sorted keys. -/
def render : Jval → String
  | .null => "<nil>"
  | .bool b => if b then "true" else "false"
  | .num t => t
  | .str s => s
  | .arr l => "[" ++ renderList l ++ "]"
  | .obj m => "map[" ++ renderObj m ++ "]"
/-- Space-separated rendering of slice elements. -/
def renderList : JvalList → String
  | .nil => ""
  | .cons v .nil => render v
  | .cons v rest => render v ++ " " ++ renderList rest
/-- Space-separated rendering of map entries as key:value. -/
def renderObj : JvalObj → String
  | .nil => ""
  | .cons k v .nil => k ++ ":" ++ render v
  | .cons k v rest => k ++ ":" ++ render v ++ " " ++ renderObj rest
end

/-- Embeds the %T verb on a decoded value: the Go dynamic type name. -/
def goTypeName : Jval → String
  | .null => "<nil>"
  | .bool _ => "bool"
  | .num _ => "float64"
  | .str _ => "string"
  | .arr _ => "[]interface \x7b\x7d"
  | .obj _ => "map[string]interface \x7b\x7d"

/-- Embeds the package-level variable truncationLength of transform.go. -/
def truncationLength : Nat := 512

/-- Embeds truncatedValue of transform.go: render the value with fmt.Sprint;
if the rendering is longer than truncationLength, keep its first
truncationLength characters quoted with %q and append the fixed suffix. -/
def truncatedValue (v : Jval) : String :=
  let s := render v
  if s.length > truncationLength then
    goQuote (String.mk (s.data.take truncationLength)) ++ "...\n[Value truncated]"
  else s

/-- True on the four whitespace characters of the JSON grammar. -/
def isJsonWs (c : Char) : Bool :=
  c.toNat = 32 || c.toNat = 9 || c.toNat = 10 || c.toNat = 13

/-- Embeds the whitespace skipping of encoding/json (space, tab, newline,
carriage return). -/
def skipWs (l : List Char) : List Char :=
  l.dropWhile isJsonWs

/-- Single-character escape sequences of JSON strings. -/
def escChar (c : Char) : Option Char :=
  if c = '"' then some '"'
  else if c = '\\' then some '\\'
  else if c = '/' then some '/'
  else if c = 'b' then some (Char.ofNat 8)
  else if c = 'f' then some (Char.ofNat 12)
  else if c = 'n' then some '\n'
  else if c = 'r' then some '\r'
  else if c = 't' then some '\t'
  else none

/-- Value of one hexadecimal digit (both letter cases accepted). -/
def hexDigitVal (c : Char) : Option Nat :=
  let n := c.toNat
  if 48 ≤ n && n ≤ 57 then some (n - 48)
  else if 97 ≤ n && n ≤ 102 then some (n - 87)
  else if 65 ≤ n && n ≤ 70 then some (n - 55)
  else none

/-- Value of a four-digit hexadecimal escape, left to right. -/
def hexQuad (c1 c2 c3 c4 : Char) : Option Nat :=
  match hexDigitVal c1, hexDigitVal c2, hexDigitVal c3, hexDigitVal c4 with
  | some a, some b, some c, some d => some (a * 4096 + b * 256 + c * 16 + d)
  | _, _, _, _ => none

/-- Parses the body of a JSON string after the opening quote, returning the
decoded characters and the remainder after the closing quote.  Raw control
characters are rejected, as in encoding/json. -/
def parseStringBody : List Char → Option (List Char × List Char)
  | [] => none
  | '"' :: rest => some ([], rest)
  | '\\' :: esc :: rest =>
    if esc = 'u' then
      match rest with
      | h1 :: h2 :: h3 :: h4 :: rest2 => do
        let n ← hexQuad h1 h2 h3 h4
        let p ← parseStringBody rest2
        pure (Char.ofNat n :: p.1, p.2)
      | _ => none
    else do
      let c ← escChar esc
      let p ← parseStringBody rest
      pure (c :: p.1, p.2)
  | c :: rest =>
    if c.toNat < 32 then none
    else do
      let p ← parseStringBody rest
      pure (c :: p.1, p.2)

/-- Integer part of a JSON number: a single zero or a nonzero digit followed
by any digits, per the strict JSON grammar. -/
def parseIntPart : List Char → Option (List Char × List Char)
  | [] => none
  | c :: rest =>
    if c = '0' then some ([c], rest)
    else if c.isDigit then
      some (c :: rest.takeWhile Char.isDigit, rest.dropWhile Char.isDigit)
    else none

/-- Optional fraction part of a JSON number. -/
def parseFracPart (l : List Char) : Option (List Char × List Char) :=
  match l with
  | '.' :: rest =>
    let ds := rest.takeWhile Char.isDigit
    if ds.isEmpty then none else some ('.' :: ds, rest.dropWhile Char.isDigit)
  | _ => some ([], l)

/-- Optional exponent part of a JSON number. -/
def parseExpPart (l : List Char) : Option (List Char × List Char) :=
  match l with
  | e :: rest =>
    if e = 'e' || e = 'E' then
      let p : List Char × List Char :=
        match rest with
        | s :: rest2 => if s = '+' || s = '-' then ([e, s], rest2) else ([e], rest)
        | [] => ([e], [])
      let ds := p.2.takeWhile Char.isDigit
      if ds.isEmpty then none else some (p.1 ++ ds, p.2.dropWhile Char.isDigit)
    else some ([], l)
  | [] => some ([], [])

/-- Parses a JSON number (the strict JSON grammar used by encoding/json),
returning its literal text and the remainder. -/
def parseNumber (l : List Char) : Option (List Char × List Char) := do
  let sign : List Char × List Char :=
    match l with
    | '-' :: rest => (['-'], rest)
    | _ => ([], l)
  let ip ← parseIntPart sign.2
  let fr ← parseFracPart ip.2
  let ex ← parseExpPart fr.2
  pure (sign.1 ++ ip.1 ++ fr.1 ++ ex.1, ex.2)

mutual
/-- Parses one JSON value (fuel-based recursive descent following the
encoding/json grammar, as used by gabs.ParseJSON); returns the decoded
value and the remainder. -/
def parseValue : Nat → List Char → Option (Jval × List Char)
  | 0, _ => none
  | fuel + 1, l =>
    match l with
    | 'n' :: 'u' :: 'l' :: 'l' :: rest => some (.null, rest)
    | 't' :: 'r' :: 'u' :: 'e' :: rest => some (.bool true, rest)
    | 'f' :: 'a' :: 'l' :: 's' :: 'e' :: rest => some (.bool false, rest)
    | '"' :: rest => (parseStringBody rest).map fun p => (.str (String.mk p.1), p.2)
    | c :: rest =>
      if c = lbrace then
        match skipWs rest with
        | c2 :: rest2 =>
          if c2 = rbrace then some (.obj .nil, rest2)
          else parseObjMembers fuel (c2 :: rest2) .nil
        | [] => none
      else if c = '[' then
        match skipWs rest with
        | ']' :: rest2 => some (.arr .nil, rest2)
        | l2 => parseArrElems fuel l2
      else (parseNumber (c :: rest)).map fun p => (.num (String.mk p.1), p.2)
    | [] => none
termination_by structural fuel _ => fuel
/-- Parses the members of a JSON object (positioned at a key), accumulating
the decoded fields with Go map semantics. -/
def parseObjMembers : Nat → List Char → JvalObj → Option (Jval × List Char)
  | 0, _, _ => none
  | fuel + 1, l, acc =>
    match l with
    | '"' :: rest => do
      let pk ← parseStringBody rest
      match skipWs pk.2 with
      | ':' :: rest2 => do
        let pv ← parseValue fuel (skipWs rest2)
        let acc2 := objInsert acc (String.mk pk.1) pv.1
        match skipWs pv.2 with
        | ',' :: rest3 => parseObjMembers fuel (skipWs rest3) acc2
        | c3 :: rest3 => if c3 = rbrace then some (.obj acc2, rest3) else none
        | [] => none
      | _ => none
    | _ => none
termination_by structural fuel _ _ => fuel
/-- Parses the elements of a JSON array (positioned at a value). -/
def parseArrElems : Nat → List Char → Option (Jval × List Char)
  | 0, _ => none
  | fuel + 1, l => do
    let pv ← parseValue fuel l
    match skipWs pv.2 with
    | ',' :: rest2 => do
      let pr ← parseArrElems fuel (skipWs rest2)
      match pr.1 with
      | .arr elems => pure (.arr (.cons pv.1 elems), pr.2)
      | _ => none
    | ']' :: rest2 => pure (.arr (.cons pv.1 .nil), rest2)
    | _ => none
termination_by structural fuel _ => fuel
end

/-- Embeds gabs.ParseJSON (json.Unmarshal into an interface value): the
input must be exactly one JSON value with only surrounding whitespace.
The fuel is generous: every nested parse step consumes input. -/
def gabs_ParseJSON (s : String) : Option Jval := do
  let p ← parseValue (2 * s.length + 2) (skipWs s.data)
  if (skipWs p.2).isEmpty then pure p.1 else none

mutual
/-- Embeds Container.Search of Jeffail/gabs v1: walk the hierarchy through
objects by key; on reaching an array, fan out the remaining hierarchy over
its elements, collecting the successful results (none if no element
matches); any other value with hierarchy left fails. -/
def gabsSearch : Jval → List String → Option Jval
  | j, [] => some j
  | .obj m, seg :: rest => gabsObjSearch m seg rest
  | .arr l, h => match gabsArrSearch l h with
      | .nil => none
      | r => some (.arr r)
  | _, _ :: _ => none
/-- Key lookup step of Container.Search. -/
def gabsObjSearch : JvalObj → String → List String → Option Jval
  | .nil, _, _ => none
  | .cons k v tail, seg, rest =>
    if k = seg then gabsSearch v rest else gabsObjSearch tail seg rest
/-- Array fan-out step of Container.Search: search each element with the
whole remaining hierarchy, dropping the failures. -/
def gabsArrSearch : JvalList → List String → JvalList
  | .nil, _ => .nil
  | .cons v vs, h =>
    match gabsSearch v h with
    | none => gabsArrSearch vs h
    | some r => .cons r (gabsArrSearch vs h)
end

/-- Splits a character list on every occurrence of c, keeping empty parts
(Go strings.Split with a one-character separator); acc holds the current
part in reverse. -/
def splitAllAux (c : Char) : List Char → List Char → List String
  | [], acc => [String.mk acc.reverse]
  | a :: rest, acc =>
    if a = c then String.mk acc.reverse :: splitAllAux c rest []
    else splitAllAux c rest (a :: acc)

/-- Embeds strings.Split(s, sep) for a one-character separator. -/
def splitAllOn (c : Char) (s : String) : List String :=
  splitAllAux c s.data []

/-- Embeds Container.Path of gabs: split the query on every dot and search. -/
def gabsPath (j : Jval) (query : String) : Option Jval :=
  gabsSearch j (splitAllOn '.' query)

/-- Embeds fmt.Sprint applied to Container.Data(): a nil container or nil
data prints as the angle-bracketed nil sentinel. -/
def goSprintData : Option Jval → String
  | none => "<nil>"
  | some v => render v

/-- Embeds jsonQuery of transform.go: parse the field text as JSON (the
sentinel on failure) and print the value found at the query path. -/
def jsonQuery (data query : String) : String :=
  match gabs_ParseJSON data with
  | none => "<nil>"
  | some j => goSprintData (gabsPath j query)

/-- Embeds parseTransform of transform.go: split the marker name on the
first dot; a fully numeric token is a pure positional reference, a numeric
prefix before the dot gives position plus path, and any other token is a
path query against position 1. -/
def parseTransform (s : String) : Int × String :=
  match splitFirst '.' s.data with
  | none =>
    match goAtoi s with
    | some n => (n, "")
    | none => (1, s)
  | some p =>
    match goAtoi (String.mk p.1) with
    | some n => (n, String.mk p.2)
    | none => (1, s)

/-- Go slice indexing with an Int index: none models the runtime panic on a
negative (or too large) index. -/
def goIndex (l : List String) (i : Int) : Option String :=
  if i < 0 then none else l.get? i.toNat

/-- Embeds dataLookup of transform.go: positions above the record length or
below zero give the sentinel; otherwise the record is indexed at position-1
(none models the index-out-of-range panic this raises when position = 0),
and a nonempty query is resolved with jsonQuery. -/
def dataLookup (data : List String) : String → Option String := fun s =>
  let p := parseTransform s
  if p.1 > (data.length : Int) || p.1 < 0 then some "<nil>"
  else
    match goIndex data (p.1 - 1) with
    | none => none
    | some item => if p.2 = "" then some item else some (jsonQuery item p.2)

/-- Embeds transform of transform.go: os.Expand of the argument with the
dataLookup mapping (none models a propagated panic). -/
def transform (data : List String) (arg : String) : Option String :=
  (expand (dataLookup data) arg.data).map String.mk

/-- Observable result of one json.Decoder.Decode call inside the readData
loop.  A decoded non-null value is val; a decoded top-level JSON null leaves
the Go interface nil and is nullDecoded, carrying the bytes still buffered
by the decoder (which the nil branch hands to the word scanner); a
json.SyntaxError is parseFailed, carrying the buffered bytes handed to the
word scanner, with the rest of the stream decoded by the restarted decoder
modeled by the following events; any other Decode error is decodeFailed.
The scanErr field is the oracle for bufio.Scanner.Err after the word scan. -/
inductive DecEvent where
  | val (v : Jval) : DecEvent
  | nullDecoded (buffered : String) (scanErr : Option String) : DecEvent
  | parseFailed (buffered : String) (scanErr : Option String) : DecEvent
  | decodeFailed (msg : String) : DecEvent
  deriving DecidableEq

/-- Result of running a piece of the Go program: a normal value, an error
returned to the caller, a process exit through log.Fatalf, or a runtime
panic. -/
inductive Outcome (α : Type) where
  | ok (val : α) : Outcome α
  | error (msg : String) : Outcome α
  | fatalExit (msg : String) : Outcome α
  | panicked (msg : String) : Outcome α
  deriving DecidableEq

/-- True exactly on the error constructor (an error value returned to the
caller, as opposed to a process exit or a panic). -/
def Outcome.isError {α : Type} : Outcome α → Bool
  | .error _ => true
  | _ => false

/-- Records accumulated so far prepended onto the outcome of the rest of
the loop; failures of the rest discard everything, as the Go returns
nil, err. -/
def appendRows (rows : List (List String)) : Outcome (List (List String)) → Outcome (List (List String))
  | .ok d => .ok (rows ++ d)
  | e => e

/-- Embeds the explodeArrays branch of readData: every element must be a
JSON object and is marshaled into its own one-field record; the first
non-object element aborts with the invalid piped data error.  (json.Marshal
cannot fail on a decoded map, so that error branch is not reachable.) -/
def explodeArr : JvalList → Outcome (List (List String))
  | .nil => .ok []
  | .cons (.obj m) vs =>
    match explodeArr vs with
    | .ok rows => .ok ([marshal (.obj m)] :: rows)
    | e => e
  | .cons _ _ => .error "invalid piped data"

/-- Embeds the nil branch of the readData switch: scan the buffered bytes
into whitespace-separated words, one one-field record each; a scanner error
hits log.Fatalf, which terminates the process. -/
def fallbackRecords (buffered : String) (scanErr : Option String)
    (k : Outcome (List (List String))) : Outcome (List (List String)) :=
  match scanErr with
  | some e => .fatalExit ("reading standard input: " ++ e)
  | none => appendRows ((splitWords buffered).map (fun w => [w])) k

/-- Embeds readData of transform.go over the decode-event stream: arrays
are exploded or marshaled whole depending on explodeArrays, objects are
marshaled into one-field records, the nil case falls back to whitespace
tokenization of the buffered bytes, and any other decoded type aborts with
the unexpected type error carrying the truncated rendering. -/
def readData : List DecEvent → Bool → Outcome (List (List String))
  | [], _ => .ok []
  | ev :: rest, explodeArrays =>
    match ev with
    | .val v =>
      match v with
      | .arr l =>
        if explodeArrays then
          match explodeArr l with
          | .ok rows => appendRows rows (readData rest explodeArrays)
          | e => e
        else appendRows [[marshal (.arr l)]] (readData rest explodeArrays)
      | .obj m => appendRows [[marshal (.obj m)]] (readData rest explodeArrays)
      | .null => fallbackRecords "" none (readData rest explodeArrays)
      | _ => .error ("unexpected type (" ++ goTypeName v ++ "): " ++ truncatedValue v)
    | .nullDecoded buf scanErr => fallbackRecords buf scanErr (readData rest explodeArrays)
    | .parseFailed buf scanErr => fallbackRecords buf scanErr (readData rest explodeArrays)
    | .decodeFailed msg => .error msg

/-- One row of the InputToCommands loop: every template argument expanded
against one record; none models a panic propagating out of transform. -/
def transformAll (rec : List String) : List String → Option (List String)
  | [] => some []
  | a :: rest =>
    match transform rec a, transformAll rec rest with
    | some s, some ss => some (s :: ss)
    | _, _ => none

/-- All rows of the InputToCommands loop, one per record, in record order. -/
def transformRows (args : List String) : List (List String) → Option (List (List String))
  | [] => some []
  | rec :: rest =>
    match transformAll rec args, transformRows args rest with
    | some row, some rows => some (row :: rows)
    | _, _ => none

/-- Embeds InputToCommands of transform.go: extract the records with
readData (propagating its failures), pass the templates through unmodified
when there are no records, and otherwise expand every template against
every record. -/
def InputToCommands (events : List DecEvent) (args : List String)
    (explodeArrays : Bool) : Outcome (List (List String)) :=
  match readData events explodeArrays with
  | .ok data =>
    if data.length = 0 then .ok [args]
    else
      match transformRows args data with
      | some cmds => .ok cmds
      | none => .panicked "runtime error: index out of range [-1]"
  | .error e => .error e
  | .fatalExit m => .fatalExit m
  | .panicked m => .panicked m

/-- True when every element of the decoded array is a JSON object (the
precondition checked per element by the explodeArrays branch). -/
def JvalList.allObjects : JvalList → Bool
  | .nil => true
  | .cons (.obj _) vs => allObjects vs
  | .cons _ _ => false

/-- One-field records obtained by marshaling each array element, the
successful result of the explodeArrays branch. -/
def JvalList.toRecords : JvalList → List (List String)
  | .nil => []
  | .cons v vs => [marshal v] :: toRecords vs

/-- True on the decoded values hit by the default arm of the readData type
switch: top-level JSON strings, numbers and booleans. -/
def Jval.isScalar : Jval → Bool
  | .bool _ => true
  | .num _ => true
  | .str _ => true
  | _ => false

theorem expandFuel_congr (f : String → Option String) :
    ∀ (n m : Nat) (cs : List Char), cs.length < n → cs.length < m →
      expandFuel f n cs = expandFuel f m cs := by
  intro n
  induction n using Nat.strong_induction_on with
  | _ n ih =>
    intro m cs hn hm
    match n, m with
    | n' + 1, m' + 1 =>
      match cs with
      | [] => rfl
      | c :: rest =>
        have hr : rest.length < n' := by simp at hn; omega
        have hrm : rest.length < m' := by simp at hm; omega
        simp only [expandFuel]
        by_cases hc : c = '$'
        · simp only [hc, if_pos rfl]
          match rest with
          | [] => rfl
          | d :: rest2 =>
            have hd1 : ((d :: rest2).drop (getShellName (d :: rest2)).2).length < n' := by
              have := List.length_drop (getShellName (d :: rest2)).2 (d :: rest2)
              omega
            have hd2 : ((d :: rest2).drop (getShellName (d :: rest2)).2).length < m' := by
              have := List.length_drop (getShellName (d :: rest2)).2 (d :: rest2)
              omega
            rw [ih n' (by omega) m' _ hd1 hd2, ih n' (by omega) m' _ hr hrm]
        · simp only [hc, if_neg, ite_false]
          rw [ih n' (by omega) m' _ hr hrm]

theorem appendRows_nil (k : Outcome (List (List String))) : appendRows [] k = k := by
  cases k <;> rfl

/-- Claim C5: for every template list and every explodeArrays setting, when
the extractor yields an empty Stream the builder returns a Matrix whose
only Row is the template list, unmodified. -/
theorem inputToCommands_empty_stream_passthrough (events : List DecEvent)
    (args : List String) (explodeArrays : Bool)
    (h : readData events explodeArrays = .ok []) :
    InputToCommands events args explodeArrays = .ok [args] := by
  unfold InputToCommands
  rw [h]
  rfl

theorem inputToCommands_empty_stream_passthrough_witness :
    readData [] false = .ok [] ∧
      InputToCommands [] ["a b $1"] false = .ok [["a b $1"]] :=
  ⟨rfl, inputToCommands_empty_stream_passthrough [] ["a b $1"] false rfl⟩

/-- Claim C10: a decoded top-level JSON null produces no record and no
error (the nil branch tokenizes the empty buffered remainder), so an input
consisting solely of the text null yields the empty Stream and the
passthrough Matrix holding the unmodified template list. -/
theorem readData_null_dropped :
    (∀ (rest : List DecEvent) (explodeArrays : Bool),
      readData (.nullDecoded "" none :: rest) explodeArrays = readData rest explodeArrays) ∧
    (∀ (args : List String) (explodeArrays : Bool),
      InputToCommands [.nullDecoded "" none] args explodeArrays = .ok [args]) := by
  constructor
  · intro rest explodeArrays
    show fallbackRecords "" none (readData rest explodeArrays) = readData rest explodeArrays
    show appendRows [] (readData rest explodeArrays) = readData rest explodeArrays
    exact appendRows_nil _
  · intro args explodeArrays
    rfl

/-- Claim C3 counterexample: at a concrete scanner failure during the
whitespace-tokenizing fallback, readData ends in a process exit through
log.Fatalf, not in an error value returned to the caller. -/
theorem readData_scan_error_counterexample :
    readData [.parseFailed "abc" (some "read failure")] false
        = .fatalExit "reading standard input: read failure" ∧
      (readData [.parseFailed "abc" (some "read failure")] false).isError = false :=
  ⟨rfl, rfl⟩

/-- Claim C3 as amended: a low-level read failure while whitespace-tokenizing
in the fallback path makes the extractor terminate the host process directly
through log.Fatalf with the reading standard input message; the failure is
not returned to the caller. -/
theorem readData_scan_error_fatal (buffered : String) (e : String)
    (rest : List DecEvent) (explodeArrays : Bool) :
    readData (.parseFailed buffered (some e) :: rest) explodeArrays
      = .fatalExit ("reading standard input: " ++ e) := rfl

theorem explodeArr_allObjects : ∀ (l : JvalList), l.allObjects = true →
    explodeArr l = .ok l.toRecords
  | .nil, _ => rfl
  | .cons (.obj m) vs, h => by
    simp only [JvalList.allObjects] at h
    simp only [explodeArr, JvalList.toRecords, explodeArr_allObjects vs h]
  | .cons .null vs, h => by simp [JvalList.allObjects] at h
  | .cons (.bool b) vs, h => by simp [JvalList.allObjects] at h
  | .cons (.num t) vs, h => by simp [JvalList.allObjects] at h
  | .cons (.str x) vs, h => by simp [JvalList.allObjects] at h
  | .cons (.arr l2) vs, h => by simp [JvalList.allObjects] at h

theorem explodeArr_nonObject : ∀ (l : JvalList), l.allObjects = false →
    explodeArr l = .error "invalid piped data"
  | .nil, h => by simp [JvalList.allObjects] at h
  | .cons (.obj m) vs, h => by
    simp only [JvalList.allObjects] at h
    simp only [explodeArr, explodeArr_nonObject vs h]
  | .cons .null vs, _ => rfl
  | .cons (.bool b) vs, _ => rfl
  | .cons (.num t) vs, _ => rfl
  | .cons (.str x) vs, _ => rfl
  | .cons (.arr l2) vs, _ => rfl

/-- Claim C4: with explodeArrays set, a decoded array all of whose elements
are objects contributes one one-field record per element, marshaled to
compact JSON, in order; an array with any non-object element makes the
whole invocation return only the invalid piped data error. -/
theorem readData_explode_arrays (l : JvalList) (rest : List DecEvent)
    (args : List String) :
    (l.allObjects = true →
      readData (.val (.arr l) :: rest) true
        = appendRows l.toRecords (readData rest true)) ∧
    (l.allObjects = false →
      InputToCommands (.val (.arr l) :: rest) args true
        = .error "invalid piped data") := by
  constructor
  · intro h
    show (match explodeArr l with
      | .ok rows => appendRows rows (readData rest true)
      | e => e) = _
    rw [explodeArr_allObjects l h]
  · intro h
    unfold InputToCommands
    show (match (match explodeArr l with
      | .ok rows => appendRows rows (readData rest true)
      | e => e) with
      | .ok data => _
      | .error e => Outcome.error e
      | .fatalExit m => .fatalExit m
      | .panicked m => .panicked m) = _
    rw [explodeArr_nonObject l h]

theorem readData_explode_arrays_witness :
    (JvalList.allObjects (.cons (.obj (.cons "a" (.str "c") .nil)) .nil) = true ∧
      readData [.val (.arr (.cons (.obj (.cons "a" (.str "c") .nil)) .nil))] true
        = appendRows (JvalList.toRecords (.cons (.obj (.cons "a" (.str "c") .nil)) .nil))
            (readData [] true)) ∧
    (JvalList.allObjects (.cons (.obj (.cons "a" (.str "c") .nil)) (.cons (.str "x") .nil)) = false ∧
      InputToCommands
          [.val (.arr (.cons (.obj (.cons "a" (.str "c") .nil)) (.cons (.str "x") .nil)))]
          ["$1"] true
        = .error "invalid piped data") :=
  ⟨⟨rfl, (readData_explode_arrays (.cons (.obj (.cons "a" (.str "c") .nil)) .nil) [] ["$1"]).1 rfl⟩,
   ⟨rfl, (readData_explode_arrays (.cons (.obj (.cons "a" (.str "c") .nil)) (.cons (.str "x") .nil))
      [] ["$1"]).2 rfl⟩⟩

/-- Claim C7: a decoded top-level JSON scalar (string, number or boolean)
makes extraction fail with the unexpected type error whose message carries
the truncated textual rendering of the offending value. -/
theorem readData_scalar_unexpectedType (v : Jval) (rest : List DecEvent)
    (explodeArrays : Bool) (h : v.isScalar = true) :
    readData (.val v :: rest) explodeArrays
      = .error ("unexpected type (" ++ goTypeName v ++ "): " ++ truncatedValue v) := by
  cases v <;> first | rfl | simp [Jval.isScalar] at h

theorem readData_scalar_unexpectedType_witness :
    Jval.isScalar (.str "hello") = true ∧
      readData [.val (.str "hello")] false = .error "unexpected type (string): hello" :=
  ⟨rfl, readData_scalar_unexpectedType (.str "hello") [] false rfl⟩

/-- Claim C8: truncatedValue leaves a rendering of at most 512 characters
unchanged and otherwise keeps exactly the first 512 characters, quoted,
followed by the fixed truncation suffix. -/
theorem truncatedValue_spec (v : Jval) :
    truncationLength = 512 ∧
    ((render v).length ≤ 512 → truncatedValue v = render v) ∧
    (512 < (render v).length →
      truncatedValue v
        = goQuote (String.mk ((render v).data.take 512)) ++ "...\n[Value truncated]") := by
  refine ⟨rfl, ?_, ?_⟩
  · intro h
    unfold truncatedValue
    rw [if_neg (by simp [truncationLength]; omega)]
  · intro h
    unfold truncatedValue
    rw [if_pos (by simp [truncationLength]; omega)]
    rfl

set_option maxRecDepth 4000 in
theorem truncatedValue_spec_witness :
    ((render (Jval.str "abc")).length ≤ 512 ∧ truncatedValue (.str "abc") = "abc") ∧
    (512 < (render (Jval.str (String.mk (List.replicate 513 'a')))).length ∧
      truncatedValue (.str (String.mk (List.replicate 513 'a')))
        = goQuote (String.mk (List.replicate 512 'a')) ++ "...\n[Value truncated]") :=
  ⟨⟨by decide, (truncatedValue_spec (.str "abc")).2.1 (by decide)⟩,
   ⟨by decide, (truncatedValue_spec (.str (String.mk (List.replicate 513 'a')))).2.2 (by decide)⟩⟩

/-- Claim C6: the path resolver returns the literal nil sentinel both when
the field text does not parse as JSON and when the query path resolves to
nothing in the parsed structure; both are ordinary return values, not
errors. -/
theorem jsonQuery_sentinel (s q : String) :
    (gabs_ParseJSON s = none → jsonQuery s q = "<nil>") ∧
    (∀ j, gabs_ParseJSON s = some j → gabsPath j q = none → jsonQuery s q = "<nil>") := by
  constructor
  · intro h
    unfold jsonQuery
    rw [h]
  · intro j hj hp
    unfold jsonQuery
    rw [hj]
    show goSprintData (gabsPath j q) = "<nil>"
    rw [hp]
    rfl

theorem jsonQuery_sentinel_witness :
    (gabs_ParseJSON "a" = none ∧ jsonQuery "a" "zzz" = "<nil>") ∧
    (gabs_ParseJSON "\x7b\"c\":\"d\"\x7d" = some (.obj (.cons "c" (.str "d") .nil)) ∧
      gabsPath (.obj (.cons "c" (.str "d") .nil)) "zzz" = none ∧
      jsonQuery "\x7b\"c\":\"d\"\x7d" "zzz" = "<nil>") :=
  ⟨⟨rfl, (jsonQuery_sentinel "a" "zzz").1 rfl⟩,
   ⟨rfl, rfl, (jsonQuery_sentinel "\x7b\"c\":\"d\"\x7d" "zzz").2
      (.obj (.cons "c" (.str "d") .nil)) rfl rfl⟩⟩

/-- Claim C1 (code bug): the guard in dataLookup tests position less than
zero instead of less than one, so a marker with position zero passes the
guard and indexes the record at minus one: the expansion panics with an
index-out-of-range runtime error instead of substituting the nil sentinel,
while positions below zero and above the field count do substitute the
sentinel as the spec states. -/
theorem dataLookup_position_zero_panics :
    parseTransform "0" = (0, "") ∧
    dataLookup ["\x7b\"a\":\"b\"\x7d"] "0" = none ∧
    InputToCommands [.val (.obj (.cons "a" (.str "b") .nil))] ["$0"] false
      = .panicked "runtime error: index out of range [-1]" ∧
    InputToCommands [.val (.obj (.cons "a" (.str "b") .nil))] ["$3"] false
      = .ok [["<nil>"]] ∧
    InputToCommands [.val (.obj (.cons "a" (.str "b") .nil))] ["$\x7b-1\x7d"] false
      = .ok [["<nil>"]] :=
  ⟨rfl, rfl, rfl, rfl, rfl⟩

/-- Claim C2 counterexample: against a record holding a JSON object with a
uuid field, the unbraced marker form leaves the path as literal text after
substituting only the one-digit positional reference, while the braced form
resolves the path; the two expansions differ. -/
theorem transform_unbraced_path_counterexample :
    transform ["\x7b\"uuid\":\"x\"\x7d"] "$1.uuid" = some "\x7b\"uuid\":\"x\"\x7d.uuid" ∧
    transform ["\x7b\"uuid\":\"x\"\x7d"] "$\x7b1.uuid\x7d" = some "x" ∧
    transform ["\x7b\"uuid\":\"x\"\x7d"] "$1.uuid"
      ≠ transform ["\x7b\"uuid\":\"x\"\x7d"] "$\x7b1.uuid\x7d" :=
  ⟨rfl, rfl, by decide⟩

theorem expandFuel_cons_named (f : String → Option String) (fuel : Nat)
    (d : Char) (rest2 : List Char) (name : String) (w : Nat)
    (hg : getShellName (d :: rest2) = (name, w)) (hn : name ≠ "") :
    expandFuel f (fuel + 1) ('$' :: d :: rest2)
      = match f name, expandFuel f fuel ((d :: rest2).drop w) with
        | some v, some t => some (v.data ++ t)
        | _, _ => none := by
  simp only [expandFuel]
  rw [hg]
  simp only [hn]
  rfl

/-- Claim C2 as amended: for an unbraced marker whose name starts with a
shell special character (in particular any digit), os.Expand consumes only
that single character as the marker name, so the expansion substitutes the
one-character reference and leaves the rest of the name, including any
dot-separated path, as literal template text; path resolution happens only
through the braced form. -/
theorem expand_unbraced_digit_marker (f : String → Option String) (d : Char)
    (hd : isShellSpecialVar d = true) (rest : List Char) :
    expand f ('$' :: d :: rest)
      = match f (String.mk [d]), expand f rest with
        | some v, some t => some (v.data ++ t)
        | _, _ => none := by
  have hdl : ¬(d = lbrace) := by
    intro h
    rw [h] at hd
    exact absurd hd (by decide)
  have hg : getShellName (d :: rest) = (String.mk [d], 1) := by
    simp [getShellName, hdl, hd]
  have hn : String.mk [d] ≠ "" := by
    intro h
    exact List.cons_ne_nil d [] (congrArg String.data h)
  unfold expand
  show expandFuel f ((rest.length + 2) + 1) ('$' :: d :: rest) = _
  rw [expandFuel_cons_named f (rest.length + 2) d rest (String.mk [d]) 1 hg hn]
  rw [expandFuel_congr f (rest.length + 2) (rest.length + 1) ((d :: rest).drop 1)
    (by simp) (by simp)]
  rfl

theorem expand_unbraced_digit_marker_witness :
    isShellSpecialVar '1' = true ∧
    expand (dataLookup ["\x7b\"uuid\":\"x\"\x7d"]) ('$' :: '1' :: ".uuid".data)
      = match dataLookup ["\x7b\"uuid\":\"x\"\x7d"] "1",
          expand (dataLookup ["\x7b\"uuid\":\"x\"\x7d"]) ".uuid".data with
        | some v, some t => some (v.data ++ t)
        | _, _ => none :=
  ⟨rfl, expand_unbraced_digit_marker (dataLookup ["\x7b\"uuid\":\"x\"\x7d"]) '1' rfl ".uuid".data⟩

theorem transformAll_get (rec : List String) :
    ∀ (args row : List String), transformAll rec args = some row →
      row.length = args.length ∧
        ∀ (j : Nat) (a : String), args[j]? = some a → row[j]? = transform rec a := by
  intro args
  induction args with
  | nil =>
    intro row h
    simp only [transformAll, Option.some.injEq] at h
    subst h
    simp
  | cons a as ih =>
    intro row h
    simp only [transformAll] at h
    cases ht : transform rec a with
    | none => rw [ht] at h; exact absurd h (by simp)
    | some s =>
      cases hts : transformAll rec as with
      | none => rw [ht, hts] at h; exact absurd h (by simp)
      | some ss =>
        rw [ht, hts] at h
        simp only [Option.some.injEq] at h
        subst h
        obtain ⟨hlen, hget⟩ := ih ss hts
        refine ⟨by simp [hlen], ?_⟩
        intro j x hj
        cases j with
        | zero =>
          simp only [List.getElem?_cons_zero, Option.some.injEq] at hj
          subst hj
          simpa using ht.symm
        | succ j =>
          simp only [List.getElem?_cons_succ] at hj ⊢
          exact hget j x hj

theorem transformRows_get (args : List String) :
    ∀ (data M : List (List String)), transformRows args data = some M →
      M.length = data.length ∧
        ∀ (i : Nat) (rec : List String), data[i]? = some rec →
          ∃ row, M[i]? = some row ∧ transformAll rec args = some row := by
  intro data
  induction data with
  | nil =>
    intro M h
    simp only [transformRows, Option.some.injEq] at h
    subst h
    simp
  | cons rec rest ih =>
    intro M h
    simp only [transformRows] at h
    cases ht : transformAll rec args with
    | none => rw [ht] at h; exact absurd h (by simp)
    | some row =>
      cases hts : transformRows args rest with
      | none => rw [ht, hts] at h; exact absurd h (by simp)
      | some rows =>
        rw [ht, hts] at h
        simp only [Option.some.injEq] at h
        subst h
        obtain ⟨hlen, hget⟩ := ih rows hts
        refine ⟨by simp [hlen], ?_⟩
        intro i r hi
        cases i with
        | zero =>
          simp only [List.getElem?_cons_zero, Option.some.injEq] at hi
          subst hi
          exact ⟨row, by simp, ht⟩
        | succ i =>
          simp only [List.getElem?_cons_succ] at hi ⊢
          exact hget i r hi

/-- Claim C9: whenever the builder returns a Matrix for a non-empty Stream,
the Matrix has exactly one Row per record, Rows in the record order of the
Stream, and each Row has exactly one entry per template, in template order:
entry j of Row i is the expansion of template j against record i. -/
theorem inputToCommands_matrix_shape (events : List DecEvent) (args : List String)
    (explodeArrays : Bool) (data M : List (List String))
    (hread : readData events explodeArrays = .ok data)
    (hne : data ≠ [])
    (hok : InputToCommands events args explodeArrays = .ok M) :
    M.length = data.length ∧
      ∀ (i : Nat) (rec : List String), data[i]? = some rec →
        ∃ row, M[i]? = some row ∧ row.length = args.length ∧
          ∀ (j : Nat) (a : String), args[j]? = some a → row[j]? = transform rec a := by
  unfold InputToCommands at hok
  rw [hread] at hok
  have hok2 : (if data.length = 0 then Outcome.ok [args]
      else match transformRows args data with
        | some cmds => Outcome.ok cmds
        | none => Outcome.panicked "runtime error: index out of range [-1]") = Outcome.ok M := hok
  have hlen : ¬(data.length = 0) := by
    intro h
    exact hne (List.length_eq_zero.mp h)
  rw [if_neg hlen] at hok2
  cases htr : transformRows args data with
  | none =>
    rw [htr] at hok2
    exact absurd hok2 (by simp)
  | some cmds =>
    rw [htr] at hok2
    have hM : cmds = M := by
      injection hok2
    subst hM
    obtain ⟨h1, h2⟩ := transformRows_get args data cmds htr
    refine ⟨h1, ?_⟩
    intro i rec hi
    obtain ⟨row, hrow, hta⟩ := h2 i rec hi
    obtain ⟨hrl, hrg⟩ := transformAll_get rec args row hta
    exact ⟨row, hrow, hrl, hrg⟩


theorem inputToCommands_matrix_shape_witness :
    readData [DecEvent.val (.obj (.cons "c" (.str "d") .nil))] false
        = .ok [["\x7b\"c\":\"d\"\x7d"]] ∧
    ([["\x7b\"c\":\"d\"\x7d"]] : List (List String)) ≠ [] ∧
    InputToCommands [DecEvent.val (.obj (.cons "c" (.str "d") .nil))] ["a b $1"] false
        = .ok [["a b \x7b\"c\":\"d\"\x7d"]] ∧
    (([["a b \x7b\"c\":\"d\"\x7d"]] : List (List String)).length
        = ([["\x7b\"c\":\"d\"\x7d"]] : List (List String)).length ∧
      ∀ (i : Nat) (rec : List String),
        ([["\x7b\"c\":\"d\"\x7d"]] : List (List String))[i]? = some rec →
          ∃ row, ([["a b \x7b\"c\":\"d\"\x7d"]] : List (List String))[i]? = some row ∧
            row.length = (["a b $1"] : List String).length ∧
            ∀ (j : Nat) (a : String), (["a b $1"] : List String)[j]? = some a →
              row[j]? = transform rec a) :=
  ⟨rfl, by decide, rfl,
    inputToCommands_matrix_shape [DecEvent.val (.obj (.cons "c" (.str "d") .nil))]
      ["a b $1"] false [["\x7b\"c\":\"d\"\x7d"]] [["a b \x7b\"c\":\"d\"\x7d"]]
      rfl (by decide) rfl⟩
